import Mathlib

/-!
Verification development for the morce chat broker.

Shallow embedding of the repository sources:
  src/message.rs  - the prost-based wire codec (Message.as_bytes / Message.from_bytes)
  src/time.rs     - timestamp conversion (DateTime to i32 seconds and back)
  src/server.rs   - registry handling, broadcast routing, disconnect handling,
                    the framed read loop and shutdown
  src/client.rs   - client-side username validation and heartbeats

Rust strings are modelled as lists of Unicode scalar values (Nat), byte
strings as lists of Nat below 256.  Machine integers are Nat / Int with
explicit wrapping where the source casts.
-/

namespace Morce

/-- Unicode scalar values: everything below 0x110000 except the surrogate
range.  Every Rust char satisfies this. -/
def isUnicodeScalar (n : Nat) : Bool :=
  decide (n < 0xD800) || (decide (0xE000 ≤ n) && decide (n < 0x110000))

/-- Convenience: the scalar values of a Lean string literal, used for
concrete inputs in theorems. -/
def str (s : String) : List Nat :=
  s.toList.map Char.toNat

/-- The code points with the Unicode White_Space property; this is the set
trimmed by Rust str::trim (via char::is_whitespace). -/
def isRustWhitespace (c : Nat) : Bool :=
  c ∈ [0x9, 0xA, 0xB, 0xC, 0xD, 0x20, 0x85, 0xA0, 0x1680,
       0x2000, 0x2001, 0x2002, 0x2003, 0x2004, 0x2005, 0x2006, 0x2007,
       0x2008, 0x2009, 0x200A, 0x2028, 0x2029, 0x202F, 0x205F, 0x3000]

/-- Rust str::trim on a list of scalar values: drop whitespace from both
ends. -/
def rustTrim (s : List Nat) : List Nat :=
  ((s.dropWhile isRustWhitespace).reverse.dropWhile isRustWhitespace).reverse

/- ## UTF-8

prost strings travel as UTF-8 bytes; decoding validates them
(str::from_utf8).  The encoder below is the arithmetic form of the usual
bitwise UTF-8 encoder (192 + c / 64 equals 0xC0 ||| (c >>> 6) for
c < 0x800, and so on); the decoder rejects stray continuation bytes,
overlong forms, surrogates and out-of-range values, exactly like Rust
UTF-8 validation. -/

def utf8EncodeChar (c : Nat) : List Nat :=
  if c < 0x80 then [c]
  else if c < 0x800 then [192 + c / 64, 128 + c % 64]
  else if c < 0x10000 then [224 + c / 4096, 128 + c / 64 % 64, 128 + c % 64]
  else [240 + c / 262144, 128 + c / 4096 % 64, 128 + c / 64 % 64, 128 + c % 64]

def utf8Encode : List Nat → List Nat
  | [] => []
  | c :: cs => utf8EncodeChar c ++ utf8Encode cs

def utf8DecodeChar : List Nat → Option (Nat × List Nat)
  | [] => none
  | b0 :: r0 =>
    if b0 < 0x80 then some (b0, r0)
    else if b0 < 0xC0 then none
    else if b0 < 0xE0 then
      match r0 with
      | b1 :: r1 =>
        if 128 ≤ b1 && b1 < 192 then
          let c := (b0 - 192) * 64 + (b1 - 128)
          if 0x80 ≤ c then some (c, r1) else none
        else none
      | [] => none
    else if b0 < 0xF0 then
      match r0 with
      | b1 :: b2 :: r2 =>
        if (128 ≤ b1 && b1 < 192) && (128 ≤ b2 && b2 < 192) then
          let c := (b0 - 224) * 4096 + (b1 - 128) * 64 + (b2 - 128)
          if 0x800 ≤ c && !(decide (0xD800 ≤ c) && decide (c < 0xE000)) then
            some (c, r2)
          else none
        else none
      | _ => none
    else if b0 < 0xF8 then
      match r0 with
      | b1 :: b2 :: b3 :: r3 =>
        if (128 ≤ b1 && b1 < 192) && (128 ≤ b2 && b2 < 192) &&
            (128 ≤ b3 && b3 < 192) then
          let c := (b0 - 240) * 262144 + (b1 - 128) * 4096 +
            (b2 - 128) * 64 + (b3 - 128)
          if 0x10000 ≤ c && decide (c < 0x110000) then some (c, r3) else none
        else none
      | _ => none
    else none

def utf8DecodeAux : Nat → List Nat → Option (List Nat)
  | 0, _ => none
  | _ + 1, [] => some []
  | fuel + 1, b :: bs =>
    match utf8DecodeChar (b :: bs) with
    | none => none
    | some (c, r) =>
      match utf8DecodeAux fuel r with
      | none => none
      | some cs => some (c :: cs)

/-- UTF-8 validation and decoding; one fuel unit per decoded character, and
a byte list of length L holds at most L characters, so the fuel never runs
out. -/
def utf8Decode (bs : List Nat) : Option (List Nat) :=
  utf8DecodeAux (bs.length + 1) bs

theorem utf8EncodeChar_ne_nil (c : Nat) : utf8EncodeChar c ≠ [] := by
  unfold utf8EncodeChar
  split_ifs <;> simp

theorem utf8DecodeChar_encode (c : Nat) (h : isUnicodeScalar c = true)
    (rest : List Nat) :
    utf8DecodeChar (utf8EncodeChar c ++ rest) = some (c, rest) := by
  simp only [isUnicodeScalar, Bool.or_eq_true, Bool.and_eq_true,
    decide_eq_true_eq] at h
  unfold utf8EncodeChar
  split_ifs with h1 h2 h3
  · simp [utf8DecodeChar, h1]
  · have hb0 : ¬(192 + c / 64 < 128) := by omega
    have hb0' : ¬(192 + c / 64 < 192) := by omega
    have hb0'' : 192 + c / 64 < 224 := by omega
    simp only [List.cons_append, utf8DecodeChar]
    rw [if_neg hb0, if_neg (by omega), if_pos (by omega)]
    have hb1 : (128 ≤ 128 + c % 64 && 128 + c % 64 < 192) = true := by
      simp only [Bool.and_eq_true, decide_eq_true_eq]
      omega
    rw [hb1]
    simp only [if_pos]
    rw [if_pos (by omega)]
    simp only [Option.some.injEq, Prod.mk.injEq]
    constructor
    · omega
    · rfl
  · simp only [List.cons_append, utf8DecodeChar]
    rw [if_neg (by omega), if_neg (by omega), if_neg (by omega),
      if_pos (by omega)]
    have hc1 : (128 ≤ 128 + c / 64 % 64 && 128 + c / 64 % 64 < 192) = true := by
      simp only [Bool.and_eq_true, decide_eq_true_eq]
      omega
    have hc2 : (128 ≤ 128 + c % 64 && 128 + c % 64 < 192) = true := by
      simp only [Bool.and_eq_true, decide_eq_true_eq]
      omega
    rw [hc1, hc2]
    simp only [Bool.and_self, if_pos]
    have hval : (224 + c / 4096 - 224) * 4096 + (128 + c / 64 % 64 - 128) * 64 +
        (128 + c % 64 - 128) = c := by omega
    rw [hval]
    have hrange : (0x800 ≤ c && !(decide (0xD800 ≤ c) && decide (c < 0xE000))) = true := by
      simp only [Bool.and_eq_true, Bool.not_eq_true', Bool.and_eq_false_iff,
        decide_eq_true_eq, decide_eq_false_iff_not]
      constructor
      · omega
      · omega
    rw [if_pos hrange]
    simp
  · have hc : 0x10000 ≤ c ∧ c < 0x110000 := by omega
    simp only [List.cons_append, utf8DecodeChar]
    rw [if_neg (by omega), if_neg (by omega), if_neg (by omega),
      if_neg (by omega), if_pos (by omega)]
    have hc1 : (128 ≤ 128 + c / 4096 % 64 && 128 + c / 4096 % 64 < 192) = true := by
      simp only [Bool.and_eq_true, decide_eq_true_eq]
      omega
    have hc2 : (128 ≤ 128 + c / 64 % 64 && 128 + c / 64 % 64 < 192) = true := by
      simp only [Bool.and_eq_true, decide_eq_true_eq]
      omega
    have hc3 : (128 ≤ 128 + c % 64 && 128 + c % 64 < 192) = true := by
      simp only [Bool.and_eq_true, decide_eq_true_eq]
      omega
    rw [hc1, hc2, hc3]
    simp only [Bool.and_self, if_pos]
    have hval : (240 + c / 262144 - 240) * 262144 + (128 + c / 4096 % 64 - 128) * 4096 +
        (128 + c / 64 % 64 - 128) * 64 + (128 + c % 64 - 128) = c := by omega
    rw [hval]
    rw [if_pos (by simp only [Bool.and_eq_true, decide_eq_true_eq]; omega)]
    simp

theorem utf8DecodeAux_encode (s : List Nat) :
    (∀ c ∈ s, isUnicodeScalar c = true) →
    ∀ fuel, s.length < fuel → utf8DecodeAux fuel (utf8Encode s) = some s := by
  induction s with
  | nil =>
    intro _ fuel hf
    match fuel, hf with
    | f + 1, _ => simp [utf8Encode, utf8DecodeAux]
  | cons c cs ih =>
    intro hs fuel hf
    match fuel, hf with
    | f + 1, hf =>
      have hc : isUnicodeScalar c = true := hs c (by simp)
      have hcs : ∀ x ∈ cs, isUnicodeScalar x = true := fun x hx => hs x (by simp [hx])
      obtain ⟨b, t, hbt⟩ : ∃ b t, utf8EncodeChar c = b :: t := by
        cases h : utf8EncodeChar c with
        | nil => exact absurd h (utf8EncodeChar_ne_nil c)
        | cons b t => exact ⟨b, t, rfl⟩
      have henc : utf8Encode (c :: cs) = b :: (t ++ utf8Encode cs) := by
        simp [utf8Encode, hbt]
      rw [henc]
      have hdec : utf8DecodeChar (b :: (t ++ utf8Encode cs)) = some (c, utf8Encode cs) := by
        have := utf8DecodeChar_encode c hc (utf8Encode cs)
        rwa [hbt, List.cons_append] at this
      have hrec : utf8DecodeAux f (utf8Encode cs) = some cs := by
        apply ih hcs
        simp at hf
        omega
      simp [utf8DecodeAux, hdec, hrec]

theorem utf8Encode_length_ge (s : List Nat) : s.length ≤ (utf8Encode s).length := by
  induction s with
  | nil => simp [utf8Encode]
  | cons c cs ih =>
    simp only [utf8Encode, List.length_append, List.length_cons]
    have : 1 ≤ (utf8EncodeChar c).length := by
      cases h : utf8EncodeChar c with
      | nil => exact absurd h (utf8EncodeChar_ne_nil c)
      | cons b t => simp
    omega

theorem utf8Decode_encode (s : List Nat) (h : ∀ c ∈ s, isUnicodeScalar c = true) :
    utf8Decode (utf8Encode s) = some s := by
  unfold utf8Decode
  exact utf8DecodeAux_encode s h _ (by have := utf8Encode_length_ge s; omega)

/- ## Protobuf varints

prost length prefixes, keys, enum and int32 fields travel as base-128
varints of a u64 value.  The encoder peels seven bits at a time; the fuel
argument equals the initial value, which always dominates the number of
divisions by 128. -/

def varintEncAux : Nat → Nat → List Nat
  | 0, n => [n]
  | fuel + 1, n => if n < 128 then [n] else (128 + n % 128) :: varintEncAux fuel (n / 128)

def varintEnc (n : Nat) : List Nat :=
  varintEncAux n n

def varintDec : List Nat → Option (Nat × List Nat)
  | [] => none
  | b :: rest =>
    if b < 128 then some (b, rest)
    else
      match varintDec rest with
      | none => none
      | some (v, r) => some ((b - 128) + 128 * v, r)

theorem varintDec_encAux (fuel n : Nat) (hn : n ≤ fuel) (rest : List Nat) :
    varintDec (varintEncAux fuel n ++ rest) = some (n, rest) := by
  induction fuel generalizing n with
  | zero =>
    have : n = 0 := by omega
    subst this
    simp [varintEncAux, varintDec]
  | succ f ih =>
    by_cases h : n < 128
    · simp [varintEncAux, h, varintDec]
    · have hdiv : n / 128 < n := Nat.div_lt_self (by omega) (by norm_num)
      have hrec := ih (n / 128) (by omega)
      simp only [varintEncAux, if_neg h, List.cons_append, varintDec,
        if_neg (by omega : ¬(128 + n % 128 < 128))]
      rw [hrec]
      simp only [Option.some.injEq, Prod.mk.injEq]
      refine ⟨by omega, trivial⟩

theorem varintDec_enc (n : Nat) (rest : List Nat) :
    varintDec (varintEnc n ++ rest) = some (n, rest) :=
  varintDec_encAux n n (Nat.le_refl n) rest

theorem varintEnc_small (n : Nat) (h : n < 128) : varintEnc n = [n] := by
  cases n with
  | zero => simp [varintEnc, varintEncAux]
  | succ m => simp [varintEnc, varintEncAux, h]

/- ## Data model (src/message.rs)

Message mirrors the Rust struct: sender (String), content (Content with
exactly the variants the codec file declares: Text and File; the Signal
variant matched in server.rs/client.rs belongs to a different revision of
message.rs that is absent from src/), kind (MessageType) and timestamp
(chrono DateTime of Utc, modelled as whole seconds plus a nanosecond
remainder). -/

structure FileData where
  data : List Nat
  name : List Nat
deriving DecidableEq, Repr

inductive Content where
  | Text : List Nat → Content
  | File : FileData → Content
deriving DecidableEq, Repr

inductive MessageType where
  | Private
  | Public
deriving DecidableEq, Repr

/-- chrono DateTime of Utc: seconds since epoch plus nanosecond part. -/
structure DateTimeUtc where
  secs : Int
  nanos : Nat
deriving DecidableEq, Repr

structure Message where
  sender : List Nat
  content : Content
  kind : MessageType
  timestamp : DateTimeUtc
deriving DecidableEq, Repr

/-- The error type of src/errors.rs, payloads omitted.  message.rs also
names a MessageConversionFailed variant that the errors.rs revision in
src/ does not declare; it is included so the codec can be modelled. -/
inductive Error where
  | ServerBindFailed
  | BytesWriteFailed
  | MessageSendFailed
  | MessageReceiveFailed
  | InputReadFailed
  | TaskJoinFailed
  | StreamFlushFailed
  | MessageConversionFailed
  | ConnectionFailed
  | InvalidUsername
  | HeartBeatTimeOut
  | ClientDisconnected
  | UsernameTaken
  | Disconnected
deriving DecidableEq, Repr

/-- The prost-generated record of message.rs: sender is field 2 (string),
content a oneof with tags 3 (Text) and 4 (File), kind field 5 (enum as
int32), timestamp field 6 (int32 seconds, from time.rs to_timestamp). -/
structure ChatMessage where
  sender : List Nat
  content : Option Content
  kind : Int
  timestamp : Int
deriving DecidableEq, Repr

def chatMessageDefault : ChatMessage :=
  { sender := [], content := none, kind := 0, timestamp := 0 }

def fileDataDefault : FileData :=
  { data := [], name := [] }

/- ## Integer casts used by the codec

time.rs converts the chrono timestamp with `self.timestamp() as i32`
(two's-complement wrap of the i64 second count) and back with
DateTime::from_timestamp(seconds as i64, 0); an i32 is always inside
chrono's range, so the unwrap_or_default there never takes the default.
prost transports an int32 as the varint of its 64-bit sign extension and
truncates the decoded u64 back to the low 32 bits, interpreted signed. -/

/-- Two's-complement truncation of an integer to i32 (`as i32`). -/
def int32Wrap (x : Int) : Int :=
  let m := x % 4294967296
  if m < 2147483648 then m else m - 4294967296

/-- Sign extension of an i32 value to the u64 transported by a varint. -/
def int32ToU64 (x : Int) : Nat :=
  (if 0 ≤ x then x else x + 18446744073709551616).toNat

/-- prost int32 decoding: truncate the varint value to 32 bits, signed. -/
def u64ToI32 (n : Nat) : Int :=
  let m := n % 4294967296
  if m < 2147483648 then (m : Int) else (m : Int) - 4294967296

/- ## The prost wire format for ChatMessage

Keys are varints of (field number shifted left by 3, ored with the wire
type); wire type 0 is a varint scalar, wire type 2 length-delimited.
proto3 scalar fields equal to their default are skipped, oneof fields are
always written when Some.  Unknown fields are skipped by wire type;
recognized fields with the wrong wire type are a decode error, as in
prost. -/

def encKey (fieldNo wire : Nat) : List Nat :=
  varintEnc (fieldNo * 8 + wire)

def encLenDelim (fieldNo : Nat) (payload : List Nat) : List Nat :=
  encKey fieldNo 2 ++ (varintEnc payload.length ++ payload)

def encStringField (fieldNo : Nat) (s : List Nat) : List Nat :=
  if s = [] then [] else encLenDelim fieldNo (utf8Encode s)

def encBytesField (fieldNo : Nat) (d : List Nat) : List Nat :=
  if d = [] then [] else encLenDelim fieldNo d

def encInt32Field (fieldNo : Nat) (v : Int) : List Nat :=
  if v = 0 then [] else encKey fieldNo 0 ++ varintEnc (int32ToU64 v)

def encodeFileData (fd : FileData) : List Nat :=
  encBytesField 1 fd.data ++ encStringField 2 fd.name

def encContentField : Option Content → List Nat
  | none => []
  | some (.Text s) => encLenDelim 3 (utf8Encode s)
  | some (.File fd) => encLenDelim 4 (encodeFileData fd)

def encodeChatMessage (cm : ChatMessage) : List Nat :=
  encStringField 2 cm.sender ++ (encContentField cm.content ++
    (encInt32Field 5 cm.kind ++ encInt32Field 6 cm.timestamp))

/-- Read a length-delimited payload: varint length, then that many bytes;
fewer remaining bytes are a decode error. -/
def readLenDelim (bs : List Nat) : Option (List Nat × List Nat) :=
  match varintDec bs with
  | none => none
  | some (len, r) =>
    if len ≤ r.length then some (r.take len, r.drop len) else none

/-- Skip an unknown field according to its wire type. -/
def skipField (wire : Nat) (bs : List Nat) : Option (List Nat) :=
  if wire = 0 then (varintDec bs).map (·.2)
  else if wire = 1 then (if 8 ≤ bs.length then some (bs.drop 8) else none)
  else if wire = 2 then (readLenDelim bs).map (·.2)
  else if wire = 5 then (if 4 ≤ bs.length then some (bs.drop 4) else none)
  else none

/-- Field-decoding loop for the nested FileData message (fields: 1 bytes
data, 2 string name); one fuel unit per field, so input length plus one is
always enough fuel. -/
def decFileFieldsAux : Nat → FileData → List Nat → Option FileData
  | 0, _, _ => none
  | _ + 1, acc, [] => some acc
  | fuel + 1, acc, b :: bs =>
    match varintDec (b :: bs) with
    | none => none
    | some (key, r1) =>
      if key / 8 = 1 then
        if key % 8 = 2 then
          match readLenDelim r1 with
          | none => none
          | some (d, r2) => decFileFieldsAux fuel { acc with data := d } r2
        else none
      else if key / 8 = 2 then
        if key % 8 = 2 then
          match readLenDelim r1 with
          | none => none
          | some (nb, r2) =>
            match utf8Decode nb with
            | none => none
            | some s => decFileFieldsAux fuel { acc with name := s } r2
        else none
      else if key / 8 = 0 then none
      else
        match skipField (key % 8) r1 with
        | none => none
        | some r2 => decFileFieldsAux fuel acc r2

def decodeFileData (bs : List Nat) : Option FileData :=
  decFileFieldsAux (bs.length + 1) fileDataDefault bs

/-- Field-decoding loop for ChatMessage.  Later occurrences of a scalar
field overwrite earlier ones; a second File chunk merges into the already
decoded FileData, as prost does for a message-typed oneof. -/
def decFieldsAux : Nat → ChatMessage → List Nat → Option ChatMessage
  | 0, _, _ => none
  | _ + 1, acc, [] => some acc
  | fuel + 1, acc, b :: bs =>
    match varintDec (b :: bs) with
    | none => none
    | some (key, r1) =>
      if key / 8 = 2 then
        if key % 8 = 2 then
          match readLenDelim r1 with
          | none => none
          | some (sb, r2) =>
            match utf8Decode sb with
            | none => none
            | some s => decFieldsAux fuel { acc with sender := s } r2
        else none
      else if key / 8 = 3 then
        if key % 8 = 2 then
          match readLenDelim r1 with
          | none => none
          | some (tb, r2) =>
            match utf8Decode tb with
            | none => none
            | some s => decFieldsAux fuel { acc with content := some (.Text s) } r2
        else none
      else if key / 8 = 4 then
        if key % 8 = 2 then
          match readLenDelim r1 with
          | none => none
          | some (fb, r2) =>
            let start := match acc.content with
              | some (.File fd) => fd
              | _ => fileDataDefault
            match decFileFieldsAux (fb.length + 1) start fb with
            | none => none
            | some fd => decFieldsAux fuel { acc with content := some (.File fd) } r2
        else none
      else if key / 8 = 5 then
        if key % 8 = 0 then
          match varintDec r1 with
          | none => none
          | some (v, r2) => decFieldsAux fuel { acc with kind := u64ToI32 v } r2
        else none
      else if key / 8 = 6 then
        if key % 8 = 0 then
          match varintDec r1 with
          | none => none
          | some (v, r2) => decFieldsAux fuel { acc with timestamp := u64ToI32 v } r2
        else none
      else if key / 8 = 0 then none
      else
        match skipField (key % 8) r1 with
        | none => none
        | some r2 => decFieldsAux fuel acc r2

def decodeChatMessage (bs : List Nat) : Option ChatMessage :=
  decFieldsAux (bs.length + 1) chatMessageDefault bs

/- ## Message::as_bytes and Message::from_bytes (src/message.rs 123-180) -/

/-- `self.kind as i32`. -/
def MessageType.toInt : MessageType → Int
  | .Private => 0
  | .Public => 1

/-- as_bytes: trim the sender, build the prost record (content always
Some, timestamp truncated to i32 seconds by time.rs to_timestamp) and
encode it.  prost encoding into a growable buffer cannot fail, so the
Result wrapper of the source is always Ok and is dropped here. -/
def Message.as_bytes (m : Message) : List Nat :=
  encodeChatMessage
    { sender := rustTrim m.sender
      content := some m.content
      kind := m.kind.toInt
      timestamp := int32Wrap m.timestamp.secs }

/-- from_bytes: prost-decode, then map kind 0 to Private, 1 to Public and
reject others; a missing content becomes Content::default, that is
Text(""); the i32 timestamp becomes a DateTime with zero nanoseconds. -/
def Message.from_bytes (bs : List Nat) : Except Error Message :=
  match decodeChatMessage bs with
  | none => .error .MessageConversionFailed
  | some cm =>
    if cm.kind = 0 then
      .ok { sender := cm.sender, content := cm.content.getD (.Text []),
            kind := .Private, timestamp := { secs := cm.timestamp, nanos := 0 } }
    else if cm.kind = 1 then
      .ok { sender := cm.sender, content := cm.content.getD (.Text []),
            kind := .Public, timestamp := { secs := cm.timestamp, nanos := 0 } }
    else .error .MessageConversionFailed

/- ## Round-trip lemmas for the wire format -/

theorem varintEnc_ne_nil (n : Nat) : varintEnc n ≠ [] := by
  unfold varintEnc
  cases n with
  | zero => simp [varintEncAux]
  | succ f =>
    simp only [varintEncAux]
    split_ifs <;> simp

theorem readLenDelim_enc (l rest : List Nat) :
    readLenDelim (varintEnc l.length ++ (l ++ rest)) = some (l, rest) := by
  unfold readLenDelim
  rw [varintDec_enc]
  have h1 : l.length ≤ (l ++ rest).length := by simp
  have ht : (l ++ rest).take l.length = l := List.take_left l rest
  have hd : (l ++ rest).drop l.length = rest := List.drop_left l rest
  simp [h1, ht, hd]

theorem decFieldsAux_nil (fuel : Nat) (hf : 1 ≤ fuel) (acc : ChatMessage) :
    decFieldsAux fuel acc [] = some acc := by
  match fuel, hf with
  | f + 1, _ => rfl

theorem decFileFieldsAux_nil (fuel : Nat) (hf : 1 ≤ fuel) (acc : FileData) :
    decFileFieldsAux fuel acc [] = some acc := by
  match fuel, hf with
  | f + 1, _ => rfl

theorem decFileFieldsAux_data_step (d : List Nat) (fuel : Nat) (hf : 1 ≤ fuel)
    (acc : FileData) (rest : List Nat) :
    decFileFieldsAux fuel acc (encLenDelim 1 d ++ rest) =
      decFileFieldsAux (fuel - 1) { acc with data := d } rest := by
  match fuel, hf with
  | f + 1, _ =>
    have hkey : encKey 1 2 = [10] := varintEnc_small 10 (by norm_num)
    simp only [encLenDelim, hkey, List.append_assoc, List.singleton_append]
    simp only [decFileFieldsAux, varintDec,
      if_pos (by norm_num : (10:Nat) < 128)]
    simp only [List.append_eq, List.append_assoc]
    rw [readLenDelim_enc]
    norm_num

theorem decFileFieldsAux_name_step (s : List Nat)
    (hval : ∀ c ∈ s, isUnicodeScalar c = true) (fuel : Nat) (hf : 1 ≤ fuel)
    (acc : FileData) (rest : List Nat) :
    decFileFieldsAux fuel acc (encLenDelim 2 (utf8Encode s) ++ rest) =
      decFileFieldsAux (fuel - 1) { acc with name := s } rest := by
  match fuel, hf with
  | f + 1, _ =>
    have hkey : encKey 2 2 = [18] := varintEnc_small 18 (by norm_num)
    simp only [encLenDelim, hkey, List.append_assoc, List.singleton_append]
    simp only [decFileFieldsAux, varintDec, if_pos (by norm_num : (18:Nat) < 128)]
    simp only [List.append_eq, List.append_assoc]
    rw [readLenDelim_enc]
    norm_num
    rw [utf8Decode_encode s hval]

theorem encLenDelim_length (fieldNo : Nat) (p : List Nat) :
    1 ≤ (encLenDelim fieldNo p).length := by
  unfold encLenDelim encKey
  cases h : varintEnc (fieldNo * 8 + 2) with
  | nil => exact absurd h (varintEnc_ne_nil _)
  | cons b t => simp

theorem decodeFileData_encode (fd : FileData)
    (hval : ∀ c ∈ fd.name, isUnicodeScalar c = true) :
    decodeFileData (encodeFileData fd) = some fd := by
  obtain ⟨d, nm⟩ := fd
  simp only at hval
  by_cases hd : d = [] <;> by_cases hn : nm = []
  · subst hd; subst hn
    rfl
  · subst hd
    have henc : encodeFileData ⟨[], nm⟩ = encLenDelim 2 (utf8Encode nm) ++ [] := by
      simp [encodeFileData, encBytesField, encStringField, hn]
    unfold decodeFileData
    rw [henc]
    have hlen := encLenDelim_length 2 (utf8Encode nm)
    rw [decFileFieldsAux_name_step nm hval _ (by simp only [List.length_append, List.length_nil]; omega)]
    rw [decFileFieldsAux_nil _ (by simp only [List.length_append, List.length_nil]; omega)]
    rfl
  · subst hn
    have henc : encodeFileData ⟨d, []⟩ = encLenDelim 1 d ++ [] := by
      simp [encodeFileData, encBytesField, encStringField, hd]
    unfold decodeFileData
    rw [henc]
    have hlen := encLenDelim_length 1 d
    rw [decFileFieldsAux_data_step d _ (by simp only [List.length_append, List.length_nil]; omega)]
    rw [decFileFieldsAux_nil _ (by simp only [List.length_append, List.length_nil]; omega)]
    rfl
  · have henc : encodeFileData ⟨d, nm⟩ =
        encLenDelim 1 d ++ (encLenDelim 2 (utf8Encode nm) ++ []) := by
      simp [encodeFileData, encBytesField, encStringField, hd, hn]
    unfold decodeFileData
    rw [henc]
    have hl1 := encLenDelim_length 1 d
    have hl2 := encLenDelim_length 2 (utf8Encode nm)
    rw [decFileFieldsAux_data_step d _ (by simp only [List.length_append, List.length_nil]; omega)]
    rw [decFileFieldsAux_name_step nm hval _ (by simp only [List.length_append, List.length_nil]; omega)]
    rw [decFileFieldsAux_nil _ (by simp only [List.length_append, List.length_nil]; omega)]

theorem decFieldsAux_sender_step (s : List Nat) (hs : s ≠ [])
    (hval : ∀ c ∈ s, isUnicodeScalar c = true) (fuel : Nat) (hf : 1 ≤ fuel)
    (acc : ChatMessage) (rest : List Nat) :
    decFieldsAux fuel acc (encStringField 2 s ++ rest) =
      decFieldsAux (fuel - 1) { acc with sender := s } rest := by
  match fuel, hf with
  | f + 1, _ =>
    have hkey : encKey 2 2 = [18] := varintEnc_small 18 (by norm_num)
    simp only [encStringField, if_neg hs, encLenDelim, hkey, List.append_assoc,
      List.singleton_append]
    simp only [decFieldsAux, varintDec, if_pos (by norm_num : (18:Nat) < 128)]
    simp only [List.append_eq, List.append_assoc]
    rw [readLenDelim_enc]
    norm_num
    rw [utf8Decode_encode s hval]

theorem decFieldsAux_text_step (s : List Nat)
    (hval : ∀ c ∈ s, isUnicodeScalar c = true) (fuel : Nat) (hf : 1 ≤ fuel)
    (acc : ChatMessage) (rest : List Nat) :
    decFieldsAux fuel acc (encLenDelim 3 (utf8Encode s) ++ rest) =
      decFieldsAux (fuel - 1) { acc with content := some (.Text s) } rest := by
  match fuel, hf with
  | f + 1, _ =>
    have hkey : encKey 3 2 = [26] := varintEnc_small 26 (by norm_num)
    simp only [encLenDelim, hkey, List.append_assoc, List.singleton_append]
    simp only [decFieldsAux, varintDec, if_pos (by norm_num : (26:Nat) < 128)]
    simp only [List.append_eq, List.append_assoc]
    rw [readLenDelim_enc]
    norm_num
    rw [utf8Decode_encode s hval]

theorem decFieldsAux_file_step (fd : FileData)
    (hval : ∀ c ∈ fd.name, isUnicodeScalar c = true) (fuel : Nat) (hf : 1 ≤ fuel)
    (acc : ChatMessage) (hacc : acc.content = none) (rest : List Nat) :
    decFieldsAux fuel acc (encLenDelim 4 (encodeFileData fd) ++ rest) =
      decFieldsAux (fuel - 1) { acc with content := some (.File fd) } rest := by
  match fuel, hf with
  | f + 1, _ =>
    have hkey : encKey 4 2 = [34] := varintEnc_small 34 (by norm_num)
    simp only [encLenDelim, hkey, List.append_assoc, List.singleton_append]
    simp only [decFieldsAux, varintDec, if_pos (by norm_num : (34:Nat) < 128)]
    simp only [List.append_eq, List.append_assoc]
    rw [readLenDelim_enc]
    norm_num
    rw [hacc]
    have hfd := decodeFileData_encode fd hval
    unfold decodeFileData at hfd
    rw [hfd]

theorem decFieldsAux_kind_step (n : Nat) (fuel : Nat) (hf : 1 ≤ fuel)
    (acc : ChatMessage) (rest : List Nat) :
    decFieldsAux fuel acc ((encKey 5 0 ++ varintEnc n) ++ rest) =
      decFieldsAux (fuel - 1) { acc with kind := u64ToI32 n } rest := by
  match fuel, hf with
  | f + 1, _ =>
    have hkey : encKey 5 0 = [40] := varintEnc_small 40 (by norm_num)
    simp only [hkey, List.append_assoc, List.singleton_append]
    simp only [decFieldsAux, varintDec, if_pos (by norm_num : (40:Nat) < 128)]
    simp only [List.append_eq, List.append_assoc]
    rw [varintDec_enc]
    norm_num

theorem decFieldsAux_timestamp_step (n : Nat) (fuel : Nat) (hf : 1 ≤ fuel)
    (acc : ChatMessage) (rest : List Nat) :
    decFieldsAux fuel acc ((encKey 6 0 ++ varintEnc n) ++ rest) =
      decFieldsAux (fuel - 1) { acc with timestamp := u64ToI32 n } rest := by
  match fuel, hf with
  | f + 1, _ =>
    have hkey : encKey 6 0 = [48] := varintEnc_small 48 (by norm_num)
    simp only [hkey, List.append_assoc, List.singleton_append]
    simp only [decFieldsAux, varintDec, if_pos (by norm_num : (48:Nat) < 128)]
    simp only [List.append_eq, List.append_assoc]
    rw [varintDec_enc]
    norm_num

/-- An i32 value survives its trip through the 64-bit sign extension and
the 32-bit truncation of the decoder. -/
theorem u64ToI32_int32ToU64 (x : Int) (h1 : -2147483648 ≤ x)
    (h2 : x < 2147483648) : u64ToI32 (int32ToU64 x) = x := by
  unfold u64ToI32 int32ToU64
  by_cases hx : 0 ≤ x
  · rw [if_pos hx]
    have hmod : x.toNat % 4294967296 = x.toNat := by omega
    rw [hmod]
    rw [if_pos (by omega)]
    omega
  · rw [if_neg hx]
    have hmod : (x + 18446744073709551616).toNat % 4294967296 =
        (x + 4294967296).toNat := by omega
    rw [hmod]
    rw [if_neg (by omega)]
    omega

/- ## Assembling the record round trip -/

/-- The i32 truncation is the identity on values already in i32 range. -/
theorem int32Wrap_of_range (x : Int) (h1 : -2147483648 ≤ x)
    (h2 : x < 2147483648) : int32Wrap x = x := by
  unfold int32Wrap
  by_cases hx : 0 ≤ x
  · have hm : x % 4294967296 = x := by omega
    rw [hm, if_pos (by omega)]
  · have hm : x % 4294967296 = x + 4294967296 := by omega
    rw [hm, if_neg (by omega)]
    omega

/-- Validity of the strings inside a Content value: every code point is a
Unicode scalar (automatic for Rust strings). -/
def contentStringsValid : Content → Bool
  | .Text s => s.all isUnicodeScalar
  | .File fd => fd.name.all isUnicodeScalar

theorem varintEnc_length_pos (n : Nat) : 1 ≤ (varintEnc n).length := by
  cases h : varintEnc n with
  | nil => exact absurd h (varintEnc_ne_nil n)
  | cons b t => simp

theorem encKey_length_pos (fieldNo wire : Nat) : 1 ≤ (encKey fieldNo wire).length :=
  varintEnc_length_pos _

theorem decode_tail_timestamp (acc : ChatMessage) (ht0 : acc.timestamp = 0)
    (tsv : Int) (h1 : -2147483648 ≤ tsv) (h2 : tsv < 2147483648) (fuel : Nat)
    (hf : (encInt32Field 6 tsv ++ []).length < fuel) :
    decFieldsAux fuel acc (encInt32Field 6 tsv ++ []) =
      some { acc with timestamp := tsv } := by
  obtain ⟨sa, sc, sk, st⟩ := acc
  simp only at ht0
  subst ht0
  by_cases h : tsv = 0
  · subst h
    have he : encInt32Field 6 (0 : Int) = [] := by norm_num [encInt32Field]
    rw [he] at hf ⊢
    rw [List.nil_append] at hf ⊢
    rw [decFieldsAux_nil _ (by simp at hf; omega)]
  · have he : encInt32Field 6 tsv = encKey 6 0 ++ varintEnc (int32ToU64 tsv) := by
      simp [encInt32Field, h]
    rw [he] at hf ⊢
    have hl1 := encKey_length_pos 6 0
    have hl2 := varintEnc_length_pos (int32ToU64 tsv)
    simp only [List.length_append, List.length_nil] at hf
    rw [decFieldsAux_timestamp_step _ _ (by omega)]
    rw [decFieldsAux_nil _ (by omega)]
    rw [u64ToI32_int32ToU64 tsv h1 h2]

theorem decode_tail_kind (acc : ChatMessage) (hk0 : acc.kind = 0)
    (ht0 : acc.timestamp = 0) (kv tsv : Int) (hk : kv = 0 ∨ kv = 1)
    (h1 : -2147483648 ≤ tsv) (h2 : tsv < 2147483648) (fuel : Nat)
    (hf : (encInt32Field 5 kv ++ (encInt32Field 6 tsv ++ [])).length < fuel) :
    decFieldsAux fuel acc (encInt32Field 5 kv ++ (encInt32Field 6 tsv ++ [])) =
      some { acc with kind := kv, timestamp := tsv } := by
  obtain ⟨sa, sc, sk, st⟩ := acc
  simp only at hk0 ht0
  subst hk0
  subst ht0
  rcases hk with hk | hk
  · subst hk
    have he : encInt32Field 5 (0 : Int) = [] := by norm_num [encInt32Field]
    rw [he] at hf ⊢
    rw [List.nil_append] at hf ⊢
    exact decode_tail_timestamp ⟨sa, sc, 0, 0⟩ rfl tsv h1 h2 fuel hf
  · subst hk
    have he : encInt32Field 5 (1 : Int) = encKey 5 0 ++ varintEnc (int32ToU64 1) := by
      norm_num [encInt32Field]
    rw [he] at hf ⊢
    have hl1 := encKey_length_pos 5 0
    have hl2 := varintEnc_length_pos (int32ToU64 1)
    simp only [List.length_append, List.length_nil] at hf
    rw [decFieldsAux_kind_step _ _ (by omega)]
    have hone : u64ToI32 (int32ToU64 1) = 1 := by decide
    rw [hone]
    exact decode_tail_timestamp ⟨sa, sc, 1, 0⟩ rfl tsv h1 h2 (fuel - 1)
      (by simp only [List.length_append, List.length_nil]; omega)

theorem decode_tail_content (acc : ChatMessage) (hacc : acc.content = none)
    (hk0 : acc.kind = 0) (ht0 : acc.timestamp = 0) (c : Content)
    (hcv : contentStringsValid c = true) (kv tsv : Int) (hk : kv = 0 ∨ kv = 1)
    (h1 : -2147483648 ≤ tsv) (h2 : tsv < 2147483648) (fuel : Nat)
    (hf : (encContentField (some c) ++
      (encInt32Field 5 kv ++ (encInt32Field 6 tsv ++ []))).length < fuel) :
    decFieldsAux fuel acc
      (encContentField (some c) ++ (encInt32Field 5 kv ++ (encInt32Field 6 tsv ++ []))) =
      some { acc with content := some c, kind := kv, timestamp := tsv } := by
  obtain ⟨sa, sc, sk, st⟩ := acc
  simp only at hacc hk0 ht0
  subst hacc
  subst hk0
  subst ht0
  cases c with
  | Text s =>
    have hsv : ∀ x ∈ s, isUnicodeScalar x = true := by
      simpa [contentStringsValid, List.all_eq_true] using hcv
    have he : encContentField (some (.Text s)) = encLenDelim 3 (utf8Encode s) := rfl
    rw [he] at hf ⊢
    have hCl := encLenDelim_length 3 (utf8Encode s)
    simp only [List.length_append] at hf
    rw [decFieldsAux_text_step s hsv _ (by omega)]
    exact decode_tail_kind ⟨sa, some (.Text s), 0, 0⟩ rfl rfl kv tsv hk h1 h2 (fuel - 1)
      (by simp only [List.length_append]; omega)
  | File fd =>
    have hsv : ∀ x ∈ fd.name, isUnicodeScalar x = true := by
      simpa [contentStringsValid, List.all_eq_true] using hcv
    have he : encContentField (some (.File fd)) = encLenDelim 4 (encodeFileData fd) := rfl
    rw [he] at hf ⊢
    have hCl := encLenDelim_length 4 (encodeFileData fd)
    simp only [List.length_append] at hf
    rw [decFieldsAux_file_step fd hsv _ (by omega) _ rfl]
    exact decode_tail_kind ⟨sa, some (.File fd), 0, 0⟩ rfl rfl kv tsv hk h1 h2 (fuel - 1)
      (by simp only [List.length_append]; omega)

theorem decodeChatMessage_encode (sen : List Nat) (c : Content) (kv tsv : Int)
    (hsv : sen.all isUnicodeScalar = true) (hcv : contentStringsValid c = true)
    (hk : kv = 0 ∨ kv = 1) (h1 : -2147483648 ≤ tsv) (h2 : tsv < 2147483648) :
    decodeChatMessage (encodeChatMessage ⟨sen, some c, kv, tsv⟩) =
      some ⟨sen, some c, kv, tsv⟩ := by
  have hsv2 : ∀ x ∈ sen, isUnicodeScalar x = true := by
    simpa [List.all_eq_true] using hsv
  unfold decodeChatMessage encodeChatMessage
  simp only
  have hassoc : encInt32Field 5 kv ++ encInt32Field 6 tsv =
      encInt32Field 5 kv ++ (encInt32Field 6 tsv ++ []) := by simp
  rw [hassoc]
  by_cases hsen : sen = []
  · subst hsen
    have he : encStringField 2 ([] : List Nat) = [] := rfl
    rw [he, List.nil_append]
    have := decode_tail_content chatMessageDefault rfl rfl rfl c hcv kv tsv hk h1 h2
      ((encContentField (some c) ++ (encInt32Field 5 kv ++ (encInt32Field 6 tsv ++ []))).length + 1)
      (by omega)
    rw [this]
    rfl
  · have hSl : 1 ≤ (encStringField 2 sen).length := by
      simp only [encStringField, if_neg hsen]
      exact encLenDelim_length _ _
    rw [decFieldsAux_sender_step sen hsen hsv2 _ (by omega)]
    have := decode_tail_content { chatMessageDefault with sender := sen } rfl rfl rfl
      c hcv kv tsv hk h1 h2
      ((encStringField 2 sen ++ (encContentField (some c) ++ (encInt32Field 5 kv ++ (encInt32Field 6 tsv ++ [])))).length + 1 - 1)
      (by simp only [List.length_append]; omega)
    rw [this]

/-- Strings inside a Message are sequences of Unicode scalar values;
automatic for real Rust Strings. -/
def messageStringsValid (m : Message) : Bool :=
  m.sender.all isUnicodeScalar && contentStringsValid m.content

/-- The codec round trip, under the conditions the source imposes: the
sender must already be trimmed (as_bytes trims it), the timestamp must be
a whole number of seconds representable as an i32 (to_timestamp truncates
with `as i32` and the decoder rebuilds the DateTime with zero
nanoseconds), and the strings must consist of Unicode scalar values. -/
theorem message_as_bytes_from_bytes (m : Message)
    (hwf : messageStringsValid m = true)
    (htrim : rustTrim m.sender = m.sender)
    (hnanos : m.timestamp.nanos = 0)
    (h1 : -2147483648 ≤ m.timestamp.secs) (h2 : m.timestamp.secs < 2147483648) :
    Message.from_bytes (Message.as_bytes m) = .ok m := by
  obtain ⟨sen, con, k, secs, nanos⟩ := m
  simp only [messageStringsValid, Bool.and_eq_true] at hwf
  simp only at hnanos h1 h2 htrim
  subst hnanos
  unfold Message.as_bytes
  simp only [htrim, int32Wrap_of_range secs h1 h2]
  unfold Message.from_bytes
  have hdec := decodeChatMessage_encode sen con k.toInt secs hwf.1 hwf.2
    (by cases k <;> simp [MessageType.toInt]) h1 h2
  rw [hdec]
  cases k with
  | Private => simp [MessageType.toInt]
  | Public => simp [MessageType.toInt]

/- ## Server side (src/server.rs)

The registry HashSet of Client is modelled as a list of usernames:
client.rs derives Eq/PartialEq on the username alone (lines 18-24), so
the set behaves as a set keyed by username, each entry owning the sender
half of that participant unbounded queue.  The crate root that defines
the Sender wrapper (and BUFFER_SIZE = 8192) is not part of src/; remove
and contains are therefore modelled from the spec, section 4.3: keyed by
username, remove idempotent.  Queue sends can fail when the receiver is
gone; an oracle `ok` mapping a username to the success of an enqueue on
its queue stands for that.  An enqueued value is recorded as the target
username paired with the sender and content of the routed Message (the
two-argument Message::from constructor used by server.rs is also missing
from src/; per the spec, section 4.5, it builds a Message carrying the
given sender and content with a fresh timestamp, which the claims do not
inspect). -/

abbrev Registry := List (List Nat)

/-- What one enqueue attempt carries: the routed message seen by one
recipient queue. -/
structure OutMessage where
  sender : List Nat
  content : Content
deriving DecidableEq, Repr

/-- server.rs 210-221 and 223-234: iterate the registry, skip the
originator, send the same message to everyone else; the first failing
send aborts the whole loop through the question-mark operator
(map_err + ?).  Returns the enqueue attempts made and the error, if
any. -/
def sendToOthers (ok : List Nat → Bool) (excluded : List Nat) (msg : OutMessage) :
    Registry → List (List Nat × OutMessage) × Option Error
  | [] => ([], none)
  | c :: rest =>
    if c = excluded then sendToOthers ok excluded msg rest
    else if ok c then
      let r := sendToOthers ok excluded msg rest
      ((c, msg) :: r.1, r.2)
    else ([(c, msg)], some .MessageSendFailed)

def broadcast_message (ok : List Nat → Bool) (reg : Registry)
    (sender_username : List Nat) (text : List Nat) :
    List (List Nat × OutMessage) × Option Error :=
  sendToOthers ok sender_username ⟨sender_username, .Text text⟩ reg

def broadcast_file (ok : List Nat → Bool) (reg : Registry)
    (sender_username : List Nat) (fd : FileData) :
    List (List Nat × OutMessage) × Option Error :=
  sendToOthers ok sender_username ⟨sender_username, .File fd⟩ reg

/-- server.rs 236-247: like the broadcast loops but every send result is
discarded with .ok(), so a failure never stops the iteration. -/
def sendToOthersSwallow (ok : List Nat → Bool) (excluded : List Nat)
    (msg : OutMessage) : Registry → List (List Nat × OutMessage)
  | [] => []
  | c :: rest =>
    if c = excluded then sendToOthersSwallow ok excluded msg rest
    else
      let _sendResult := ok c
      (c, msg) :: sendToOthersSwallow ok excluded msg rest

/-- The disconnect notice broadcast by remove_user. -/
def leftMessage (u : List Nat) : OutMessage :=
  ⟨str "Server", .Text (u ++ str " has left the chat.")⟩

/-- server.rs 236-247: remove the entry (if present), then broadcast the
disconnect notice to every remaining participant, swallowing enqueue
failures.  The broadcast runs whether or not the entry was still
present. -/
def remove_user (ok : List Nat → Bool) (reg : Registry) (u : List Nat) :
    Registry × List (List Nat × OutMessage) :=
  let reg2 := reg.erase u
  (reg2, sendToOthersSwallow ok u (leftMessage u) reg2)

def shutdownMessage : OutMessage :=
  ⟨str "Server", .Text (str "Server is shutting down...")⟩

/-- The send loop of shutdown (server.rs 252-255): every client, no
exclusion, abort on the first failure through ?. -/
def sendShutdownAll (ok : List Nat → Bool) :
    Registry → List (List Nat × OutMessage) × Option Error
  | [] => ([], none)
  | c :: rest =>
    if ok c then
      let r := sendShutdownAll ok rest
      ((c, shutdownMessage) :: r.1, r.2)
    else ([(c, shutdownMessage)], some .MessageSendFailed)

/-- server.rs 249-261: notify every client, sleep, then clear the
registry.  A send failure propagates out before the clear, leaving the
registry untouched. -/
def shutdown (ok : List Nat → Bool) (reg : Registry) :
    List (List Nat × OutMessage) × Option Error × Registry :=
  let r := sendShutdownAll ok reg
  match r.2 with
  | some e => (r.1, some e, reg)
  | none => (r.1, none, ([] : Registry))

/-- server.rs 60: the proposed username is the trimmed bytes of the first
read (UTF-8, lossily decoded; modelled on scalar values). -/
def handle_new_connection_username (raw : List Nat) : List Nat :=
  rustTrim raw

/-- server.rs 74-80, under one lock: reject when an entry with the same
username exists, otherwise insert.  No validity check of any kind is
performed on the server side. -/
def handle_client_register (reg : Registry) (u : List Nat) :
    Registry × Option Error :=
  if u ∈ reg then (reg, some .UsernameTaken) else (u :: reg, none)

/-- client.rs 38-51: the client loops until the trimmed input has at
least 3 characters, all alphanumeric, and only then sends it.  Rust
char::is_alphanumeric is Unicode; the ASCII fragment is modelled, which
is exact on ASCII input. -/
def isAsciiAlphanumeric (c : Nat) : Bool :=
  (decide (48 ≤ c) && decide (c ≤ 57)) || (decide (65 ≤ c) && decide (c ≤ 90)) ||
    (decide (97 ≤ c) && decide (c ≤ 122))

def client_username_check (input : List Nat) : Bool :=
  let u := rustTrim input
  decide (3 ≤ u.length) && u.all isAsciiAlphanumeric

/-- The routing step of receive_messages once a full frame payload is in
hand (server.rs 146-167): decode, then broadcast a Text to all others,
or a File to all others; a decode failure calls remove_user and returns
the error, while a broadcast send failure propagates through ? without
remove_user.  The source also matches a Content::Signal arm from another
revision of message.rs; the codec in src/ has no Signal variant, so that
arm is unreachable and omitted. -/
def process_frame (ok : List Nat → Bool) (reg : Registry) (u : List Nat)
    (payload : List Nat) :
    Registry × List (List Nat × OutMessage) × Option Error :=
  match Message.from_bytes payload with
  | .error e =>
    let r := remove_user ok reg u
    (r.1, r.2, some e)
  | .ok msg =>
    match msg.content with
    | .Text t =>
      let r := broadcast_message ok reg u t
      (reg, r.1, r.2)
    | .File fd =>
      let r := broadcast_file ok reg u fd
      (reg, r.1, r.2)

/-- What the select over the two spawned tasks in handle_client hands
back: the finishing task finished cleanly, with an error, or its join
failed. -/
inductive InnerResult where
  | ok
  | err (e : Error)
  | joinErr
deriving DecidableEq

/-- server.rs 91-110: the wrap-up of handle_client.  A clean task result
returns Ok with no further registry change; an inner error or a join
error calls remove_user (again, in the inbound-error cases) before
returning the error. -/
def handle_client_exit (ok : List Nat → Bool) (reg : Registry) (u : List Nat) :
    InnerResult → Registry × List (List Nat × OutMessage) × Option Error
  | .ok => (reg, [], none)
  | .err e =>
    let r := remove_user ok reg u
    (r.1, r.2, some e)
  | .joinErr =>
    let r := remove_user ok reg u
    (r.1, r.2, some .TaskJoinFailed)

/- ## The framed payload read loop (server.rs 124-144, client.rs 88-118)

After the 8-byte big-endian length L is read, the loop repeatedly calls
read into the remaining slice.  A read event either delivers some bytes
(at most min(remaining, BUFFER_SIZE), possibly zero at end of stream) or
fails.  On Ok(n) with n = 0 - which is how a closed stream reports end
of file, forever - both loops just continue.  The fuel argument counts
loop iterations; a result of none means the loop is still running after
that many iterations. -/

inductive ReadEv where
  | chunk (bytes : List Nat)
  | ioErr
deriving DecidableEq

def read_payload_loop : Nat → Nat → List Nat → List ReadEv →
    Option (Except Error (List Nat))
  | 0, _, _, _ => none
  | fuel + 1, len, acc, evs =>
    if len ≤ acc.length then some (.ok acc)
    else
      match evs with
      | [] => read_payload_loop fuel len acc []
      | .chunk bs :: rest =>
        if bs.length = 0 then read_payload_loop fuel len acc rest
        else read_payload_loop fuel len (acc ++ bs) rest
      | .ioErr :: _ => some (.error .MessageReceiveFailed)

/- ## Routing lemmas -/

theorem sendToOthers_all_ok (ok : List Nat → Bool) (excluded : List Nat)
    (msg : OutMessage) (l : Registry)
    (hok : ∀ c ∈ l, c ≠ excluded → ok c = true) :
    sendToOthers ok excluded msg l =
      ((l.filter fun c => decide (c ≠ excluded)).map fun c => (c, msg), none) := by
  induction l with
  | nil => simp [sendToOthers]
  | cons c rest ih =>
    by_cases hc : c = excluded
    · subst hc
      simp only [sendToOthers, if_pos rfl, List.filter_cons]
      rw [ih (fun x hx => hok x (by simp [hx]))]
      simp
    · have hco : ok c = true := hok c (by simp) hc
      simp only [sendToOthers, if_neg hc, hco, if_pos, List.filter_cons]
      rw [ih (fun x hx => hok x (by simp [hx]))]
      simp [hc]

theorem sendToOthers_none_iff (ok : List Nat → Bool) (excluded : List Nat)
    (msg : OutMessage) (l : Registry) :
    (sendToOthers ok excluded msg l).2 = none ↔
      ∀ c ∈ l, c ≠ excluded → ok c = true := by
  induction l with
  | nil => simp [sendToOthers]
  | cons c rest ih =>
    by_cases hc : c = excluded
    · subst hc
      simpa [sendToOthers] using ih
    · by_cases hco : ok c = true
      · simp only [sendToOthers, if_neg hc, hco, if_pos]
        simp only [List.mem_cons]
        constructor
        · intro h x hx hxe
          rcases hx with rfl | hx
          · exact hco
          · exact (ih.mp h) x hx hxe
        · intro h
          exact ih.mpr (fun x hx hxe => h x (Or.inr hx) hxe)
      · simp only [sendToOthers, if_neg hc, if_neg hco]
        simp only [List.mem_cons]
        constructor
        · intro h
          exact absurd h (by simp)
        · intro h
          exact absurd (h c (Or.inl rfl) hc) hco

theorem sendToOthersSwallow_eq (ok : List Nat → Bool) (excluded : List Nat)
    (msg : OutMessage) (l : Registry) :
    sendToOthersSwallow ok excluded msg l =
      (l.filter fun c => decide (c ≠ excluded)).map fun c => (c, msg) := by
  induction l with
  | nil => simp [sendToOthersSwallow]
  | cons c rest ih =>
    by_cases hc : c = excluded
    · subst hc
      simp [sendToOthersSwallow, List.filter_cons, ih]
    · simp [sendToOthersSwallow, List.filter_cons, hc, ih]

theorem sendShutdownAll_none_iff (ok : List Nat → Bool) (l : Registry) :
    (sendShutdownAll ok l).2 = none ↔ ∀ c ∈ l, ok c = true := by
  induction l with
  | nil => simp [sendShutdownAll]
  | cons c rest ih =>
    by_cases hco : ok c = true
    · simp only [sendShutdownAll, hco, if_pos, List.mem_cons]
      constructor
      · intro h x hx
        rcases hx with rfl | hx
        · exact hco
        · exact (ih.mp h) x hx
      · intro h
        exact ih.mpr (fun x hx => h x (Or.inr hx))
    · simp only [sendShutdownAll, if_neg hco, List.mem_cons]
      constructor
      · intro h
        exact absurd h (by simp)
      · intro h
        exact absurd (h c (Or.inl rfl)) hco

theorem nodup_count_eq_one {α : Type _} [BEq α] [LawfulBEq α] {l : List α}
    (hnd : l.Nodup) {a : α} (ha : a ∈ l) : l.count a = 1 := by
  induction l with
  | nil => simp at ha
  | cons b rest ih =>
    rw [List.count_cons]
    rcases List.mem_cons.mp ha with rfl | hmem
    · have hb : a ∉ rest := (List.nodup_cons.mp hnd).1
      rw [List.count_eq_zero.mpr hb]
      simp
    · have hne : b ≠ a := by
        rintro rfl
        exact (List.nodup_cons.mp hnd).1 hmem
      rw [ih (List.nodup_cons.mp hnd).2 hmem]
      simp [hne]

theorem count_pair_map (msg : OutMessage) (c : List Nat) (l : List (List Nat)) :
    List.count (c, msg) (l.map fun x => (x, msg)) = List.count c l := by
  induction l with
  | nil => rfl
  | cons a rest ih =>
    simp only [List.map_cons, List.count_cons, ih, beq_iff_eq, Prod.mk.injEq,
      and_true]

/- ## Claim theorems -/

/-- Claim C1, counterexample: the claim asserts decode(encode(m)) = m for
every Message whose content is a recognized variant and whose sender is
valid UTF-8.  The Message below has content Text and a perfectly valid
UTF-8 sender " abc", yet as_bytes trims the sender, so the round trip
returns a different Message. -/
theorem C1_counterexample :
    Message.from_bytes (Message.as_bytes
        ⟨str " abc", .Text (str "hi"), .Public, ⟨0, 0⟩⟩) =
      .ok ⟨str "abc", .Text (str "hi"), .Public, ⟨0, 0⟩⟩ ∧
    (⟨str "abc", .Text (str "hi"), .Public, ⟨0, 0⟩⟩ : Message) ≠
      ⟨str " abc", .Text (str "hi"), .Public, ⟨0, 0⟩⟩ :=
  ⟨rfl, by decide⟩

/-- Claim C1 (amended): encode always succeeds (as_bytes is total), and
decode(encode(m)) = m holds for every Message whose content is one of the
two variants the codec declares (Text or File - the codec in src/ has no
Signal variant), whose strings are Unicode scalar sequences, whose sender
is already trimmed, and whose timestamp is a whole number of seconds in
i32 range (as_bytes trims the sender and truncates the timestamp). -/
theorem C1_roundtrip (m : Message) (hwf : messageStringsValid m = true)
    (htrim : rustTrim m.sender = m.sender) (hnanos : m.timestamp.nanos = 0)
    (h1 : -2147483648 ≤ m.timestamp.secs) (h2 : m.timestamp.secs < 2147483648) :
    Message.from_bytes (Message.as_bytes m) = .ok m :=
  message_as_bytes_from_bytes m hwf htrim hnanos h1 h2

theorem C1_roundtrip_witness :
    messageStringsValid ⟨str "abc", .Text (str "hi"), .Public, ⟨100, 0⟩⟩ = true ∧
    rustTrim (str "abc") = str "abc" ∧
    Message.from_bytes (Message.as_bytes
        ⟨str "abc", .Text (str "hi"), .Public, ⟨100, 0⟩⟩) =
      .ok ⟨str "abc", .Text (str "hi"), .Public, ⟨100, 0⟩⟩ :=
  ⟨by decide, by decide,
    C1_roundtrip ⟨str "abc", .Text (str "hi"), .Public, ⟨100, 0⟩⟩
      (by decide) (by decide) rfl (by decide) (by decide)⟩

/-- Claim C2, counterexample: with alice, bob and carol registered and
every queue accepting, alice sending "@bob secret" does not whisper:
carol also receives the full body "@bob secret", and no enqueued message
carries Text "secret".  With "@dave hello" and dave absent, nothing is
enqueued on the sender queue (no "User not found") but bob still receives
the broadcast. -/
theorem C2_counterexample :
    ((str "carol",
      ({ sender := str "alice", content := .Text (str "@bob secret") } : OutMessage)) ∈
        (broadcast_message (fun _ => true) [str "alice", str "bob", str "carol"]
          (str "alice") (str "@bob secret")).1) ∧
    (∀ p ∈ (broadcast_message (fun _ => true) [str "alice", str "bob", str "carol"]
        (str "alice") (str "@bob secret")).1,
      p.2.content ≠ .Text (str "secret")) ∧
    (∀ p ∈ (broadcast_message (fun _ => true) [str "alice", str "bob"]
        (str "alice") (str "@dave hello")).1, p.1 ≠ str "alice") ∧
    ((broadcast_message (fun _ => true) [str "alice", str "bob"]
        (str "alice") (str "@dave hello")).1 ≠ []) := by
  decide

/-- Claim C2 (amended): the server has no whisper handling at all.  An
inbound Text whose body begins with the at sign is broadcast unchanged -
sender = originator, content = the whole body - to every registered
participant other than the originator (assuming enqueues succeed), and
nothing is ever enqueued on the originator queue; no "User not found"
reply exists anywhere in src/. -/
theorem C2_no_whisper (ok : List Nat → Bool) (reg : Registry) (u body : List Nat)
    (hok : ∀ c ∈ reg, ok c = true) (hat : body.take 1 = [64]) :
    broadcast_message ok reg u body =
      ((reg.filter fun c => decide (c ≠ u)).map fun c => (c, ⟨u, .Text body⟩), none) ∧
    ∀ p ∈ (broadcast_message ok reg u body).1, p.1 ≠ u := by
  have h := sendToOthers_all_ok ok u ⟨u, .Text body⟩ reg
    (fun c hc _ => hok c hc)
  refine ⟨h, ?_⟩
  intro p hp
  rw [show broadcast_message ok reg u body = sendToOthers ok u ⟨u, .Text body⟩ reg from rfl,
    h] at hp
  simp only [List.mem_map, List.mem_filter, decide_eq_true_eq] at hp
  obtain ⟨c, ⟨_, hcu⟩, rfl⟩ := hp
  exact hcu

theorem C2_no_whisper_witness :
    (∀ c ∈ ([str "alice", str "bob"] : Registry), (fun _ => true) c = true) ∧
    (str "@bob hi").take 1 = [64] ∧
    broadcast_message (fun _ => true) [str "alice", str "bob"] (str "alice")
        (str "@bob hi") =
      ([(str "bob", ⟨str "alice", .Text (str "@bob hi")⟩)], none) :=
  ⟨by decide, by decide, by
    have h := (C2_no_whisper (fun _ => true) [str "alice", str "bob"] (str "alice")
      (str "@bob hi") (by decide) (by decide)).1
    rw [h]
    decide⟩

/-- Claim C3, counterexample: the proposed username " ab " trims to "ab",
which the client-side check rejects (length 2 < 3), yet the server-side
handler performs no validity check: it registers "ab" and reports no
InvalidUsername. -/
theorem C3_counterexample :
    client_username_check (str "ab") = false ∧
    handle_client_register [] (handle_new_connection_username (str " ab ")) =
      ([str "ab"], none) := by
  decide

/-- Claim C3 (amended): username validity (trimmed length at least 3, all
alphanumeric) is enforced only by the client before sending (client.rs
38-51).  The server-side handler never validates: any free username,
valid or not, is registered and no InvalidUsername is returned.  The
boundary cases of the client check behave as specified: "ab1" accepted,
"ab" and "ab!" rejected. -/
theorem C3_no_server_validation :
    (∀ (reg : Registry) (u : List Nat), client_username_check u = false →
      u ∉ reg → handle_client_register reg u = (u :: reg, none)) ∧
    client_username_check (str "ab1") = true ∧
    client_username_check (str "ab") = false ∧
    client_username_check (str "ab!") = false := by
  refine ⟨?_, by decide, by decide, by decide⟩
  intro reg u _ hu
  simp [handle_client_register, hu]

theorem C3_no_server_validation_witness :
    client_username_check (str "ab") = false ∧
    (str "ab") ∉ ([] : Registry) ∧
    handle_client_register [] (str "ab") = ([str "ab"], none) :=
  ⟨by decide, by decide, C3_no_server_validation.1 [] (str "ab") (by decide) (by decide)⟩

/-- Claim C4: registration happens under a single lock (server.rs 74-80):
it fails with UsernameTaken and leaves the registry untouched exactly
when an entry with the same username exists (Client equality is by
username alone), inserts otherwise, and preserves the no-duplicates
invariant. -/
theorem C4_registry_unique (reg : Registry) (u : List Nat) (hnd : reg.Nodup) :
    (u ∈ reg → handle_client_register reg u = (reg, some .UsernameTaken)) ∧
    (u ∉ reg → handle_client_register reg u = (u :: reg, none)) ∧
    (handle_client_register reg u).1.Nodup := by
  refine ⟨fun h => by simp [handle_client_register, h],
    fun h => by simp [handle_client_register, h], ?_⟩
  by_cases h : u ∈ reg
  · simpa [handle_client_register, h] using hnd
  · simp only [handle_client_register, if_neg h]
    exact List.nodup_cons.mpr ⟨h, hnd⟩

theorem C4_registry_unique_witness :
    ([str "alice"] : Registry).Nodup ∧
    handle_client_register [str "alice"] (str "alice") =
      ([str "alice"], some Error.UsernameTaken) :=
  ⟨by decide,
    (C4_registry_unique [str "alice"] (str "alice") (by decide)).1 (by decide)⟩

/-- Claim C5: every abnormal exit of handle_client (inner task error -
covering clean-EOF disconnects, read, decode and write failures and the
heartbeat timeout - or a join error) runs remove_user before returning,
so the username is gone from the resulting registry.  The only exit that
skips remove_user is a clean inner Ok; the receive loop never returns Ok,
and the send loop returns Ok only once its queue is closed, which
requires every sender handle - including the one owned by the registry
entry - to be gone, so on that path the entry is already absent, which
the hypothesis records. -/
theorem C5_exit_removes (ok : List Nat → Bool) (reg : Registry) (u : List Nat)
    (res : InnerResult) (hnd : reg.Nodup) (hres : res ≠ .ok ∨ u ∉ reg) :
    u ∉ (handle_client_exit ok reg u res).1 := by
  cases res with
  | ok =>
    rcases hres with h | h
    · exact absurd rfl h
    · simpa [handle_client_exit] using h
  | err e =>
    simp only [handle_client_exit, remove_user]
    intro hmem
    exact (hnd.mem_erase_iff.mp hmem).1 rfl
  | joinErr =>
    simp only [handle_client_exit, remove_user]
    intro hmem
    exact (hnd.mem_erase_iff.mp hmem).1 rfl

theorem C5_exit_removes_witness :
    ([str "alice", str "bob"] : Registry).Nodup ∧
    (InnerResult.err .HeartBeatTimeOut ≠ InnerResult.ok) ∧
    str "alice" ∉ (handle_client_exit (fun _ => true) [str "alice", str "bob"]
      (str "alice") (.err .HeartBeatTimeOut)).1 :=
  ⟨by decide, by decide,
    C5_exit_removes (fun _ => true) [str "alice", str "bob"] (str "alice")
      (.err .HeartBeatTimeOut) (by decide) (Or.inl (by decide))⟩

/-- Claim C6: a Text without the at-sign prefix, and any File, is
broadcast to exactly the participants other than the originator - one
enqueue attempt per such participant, in registry order, each carrying
sender = originator and the same content - provided every enqueue
succeeds; the originator is never among the recipients, and with a
duplicate-free registry each other participant is enqueued exactly
once. -/
theorem C6_broadcast_all_others (ok : List Nat → Bool) (reg : Registry)
    (u t : List Nat) (fd : FileData) (hok : ∀ c ∈ reg, ok c = true)
    (hat : t.take 1 ≠ [64]) (hnd : reg.Nodup) :
    broadcast_message ok reg u t =
      ((reg.filter fun c => decide (c ≠ u)).map fun c => (c, ⟨u, .Text t⟩), none) ∧
    broadcast_file ok reg u fd =
      ((reg.filter fun c => decide (c ≠ u)).map fun c => (c, ⟨u, .File fd⟩), none) ∧
    (∀ p ∈ (broadcast_message ok reg u t).1, p.1 ≠ u) ∧
    (∀ c ∈ reg, c ≠ u →
      List.count (c, (⟨u, .Text t⟩ : OutMessage))
        (broadcast_message ok reg u t).1 = 1) := by
  have hmsg := sendToOthers_all_ok ok u ⟨u, .Text t⟩ reg (fun c hc _ => hok c hc)
  have hfile := sendToOthers_all_ok ok u ⟨u, .File fd⟩ reg (fun c hc _ => hok c hc)
  refine ⟨hmsg, hfile, ?_, ?_⟩
  · intro p hp
    rw [show broadcast_message ok reg u t = sendToOthers ok u ⟨u, .Text t⟩ reg from rfl,
      hmsg] at hp
    simp only [List.mem_map, List.mem_filter, decide_eq_true_eq] at hp
    obtain ⟨c, ⟨_, hcu⟩, rfl⟩ := hp
    exact hcu
  · intro c hc hcu
    rw [show broadcast_message ok reg u t = sendToOthers ok u ⟨u, .Text t⟩ reg from rfl,
      hmsg]
    show List.count (c, (⟨u, .Text t⟩ : OutMessage))
      ((reg.filter fun c => decide (c ≠ u)).map
        fun c => (c, (⟨u, .Text t⟩ : OutMessage))) = 1
    rw [count_pair_map]
    exact nodup_count_eq_one (hnd.filter _)
      (List.mem_filter.mpr ⟨hc, by simpa using hcu⟩)

theorem C6_broadcast_all_others_witness :
    (∀ c ∈ ([str "alice", str "bob", str "carol"] : Registry),
      (fun _ => true) c = true) ∧
    ((str "hi").take 1 ≠ [64]) ∧
    broadcast_message (fun _ => true) [str "alice", str "bob", str "carol"]
        (str "alice") (str "hi") =
      ([(str "bob", ⟨str "alice", .Text (str "hi")⟩),
        (str "carol", ⟨str "alice", .Text (str "hi")⟩)], none) :=
  ⟨by decide, by decide, by
    have h := (C6_broadcast_all_others (fun _ => true)
      [str "alice", str "bob", str "carol"] (str "alice") (str "hi")
      ⟨[], []⟩ (by decide) (by decide) (by decide)).1
    rw [h]
    decide⟩

/-- Claim C7, counterexample: with a queue that rejects sends for c1,
broadcast_message aborts with MessageSendFailed and never attempts c2,
and shutdown likewise aborts, skips c2 and leaves the registry uncleared
- enqueue failures are neither swallowed nor does the iteration
continue. -/
theorem C7_counterexample :
    ((broadcast_message (fun c => !(decide (c = str "c1")))
        [str "s", str "c1", str "c2"] (str "s") (str "hi")).2 =
      some .MessageSendFailed) ∧
    (∀ p ∈ (broadcast_message (fun c => !(decide (c = str "c1")))
        [str "s", str "c1", str "c2"] (str "s") (str "hi")).1,
      p.1 ≠ str "c2") ∧
    ((shutdown (fun c => !(decide (c = str "c1")))
        [str "s", str "c1", str "c2"]).2.2 = [str "s", str "c1", str "c2"]) ∧
    (∀ p ∈ (shutdown (fun c => !(decide (c = str "c1")))
        [str "s", str "c1", str "c2"]).1, p.1 ≠ str "c2") := by
  decide

/-- Claim C7 (amended): broadcast_message succeeds only when every
other-participant enqueue succeeds (the first failure aborts it through
?), and the same holds for shutdown, which in addition clears the
registry only on full success and leaves it untouched on failure.  Only
the disconnect broadcast inside remove_user swallows failures: its
attempt list covers every remaining participant no matter which enqueues
fail. -/
theorem C7_abort_on_failure (ok : List Nat → Bool) (reg : Registry)
    (u t : List Nat) :
    ((broadcast_message ok reg u t).2 = none ↔ ∀ c ∈ reg, c ≠ u → ok c = true) ∧
    ((shutdown ok reg).2.1 = none ↔ ∀ c ∈ reg, ok c = true) ∧
    ((shutdown ok reg).2.1 = none → (shutdown ok reg).2.2 = []) ∧
    ((shutdown ok reg).2.1 ≠ none → (shutdown ok reg).2.2 = reg) ∧
    ((remove_user ok reg u).2 =
      ((reg.erase u).filter fun c => decide (c ≠ u)).map fun c => (c, leftMessage u)) := by
  refine ⟨sendToOthers_none_iff ok u ⟨u, .Text t⟩ reg, ?_, ?_, ?_,
    sendToOthersSwallow_eq ok u (leftMessage u) (reg.erase u)⟩
  · unfold shutdown
    cases h : (sendShutdownAll ok reg).2 with
    | none => simpa [h] using (sendShutdownAll_none_iff ok reg).mp h
    | some e =>
      simp only [h]
      constructor
      · intro hfalse
        exact absurd hfalse (by simp)
      · intro hall
        exact absurd ((sendShutdownAll_none_iff ok reg).mpr hall) (by simp [h])
  · unfold shutdown
    cases h : (sendShutdownAll ok reg).2 with
    | none => simp [h]
    | some e => simp [h]
  · unfold shutdown
    cases h : (sendShutdownAll ok reg).2 with
    | none => simp [h]
    | some e => simp [h]

theorem C7_abort_on_failure_witness :
    ((broadcast_message (fun _ => true) [str "a", str "b"] (str "a")
      (str "hi")).2 = none) ∧
    ((shutdown (fun _ => true) [str "a", str "b"]).2.2 = []) :=
  ⟨((C7_abort_on_failure (fun _ => true) [str "a", str "b"] (str "a")
      (str "hi")).1).mpr (by decide),
    ((C7_abort_on_failure (fun _ => true) [str "a", str "b"] (str "a")
      (str "hi")).2.2.1) (((C7_abort_on_failure (fun _ => true) [str "a", str "b"]
        (str "a") (str "hi")).2.1).mpr (by decide))⟩

/-- Claim C8: the claim is right and the read loop is wrong.  Once the
8-byte length has announced L = 1 and the peer has closed the stream,
every further read returns Ok(0), which both read loops answer with
continue: for every iteration count the loop has neither produced a
payload nor an error (no Truncated exists in errors.rs), busy-looping
forever.  The second conjunct shows the intact half: a payload split
into single-byte reads is reassembled in full. -/
theorem C8_read_loop_eof_diverges :
    (∀ fuel, read_payload_loop fuel 1 [] [] = none) ∧
    read_payload_loop 3 2 [] [.chunk [7], .chunk [9]] = some (.ok [7, 9]) := by
  constructor
  · intro fuel
    induction fuel with
    | zero => rfl
    | succ f ih => simpa [read_payload_loop] using ih
  · rfl

/-- Claim C9, counterexample: an empty frame payload decodes successfully
to the default record (empty sender, Text "", Private, epoch), and the
receive step for a 0-length frame from alice broadcasts that empty Text
to bob with no error - it is not treated as a protocol error. -/
theorem C9_counterexample :
    Message.from_bytes ([] : List Nat) =
      .ok ⟨[], .Text [], .Private, ⟨0, 0⟩⟩ ∧
    process_frame (fun _ => true) [str "alice", str "bob"] (str "alice") [] =
      ([str "alice", str "bob"],
        [(str "bob", ⟨str "alice", .Text []⟩)], none) :=
  ⟨rfl, by decide⟩

/-- Claim C9 (amended): a 0-length frame is not rejected: prost decodes
the empty payload to the default ChatMessage, from_bytes turns the
missing content into Text "", and the frame is routed as an ordinary
empty-text broadcast to every other participant, with no error on the
connection. -/
theorem C9_zero_frame_broadcasts (ok : List Nat → Bool) (reg : Registry)
    (u : List Nat) (hok : ∀ c ∈ reg, ok c = true) :
    process_frame ok reg u [] =
      (reg, (reg.filter fun c => decide (c ≠ u)).map fun c => (c, ⟨u, .Text []⟩),
        none) := by
  have hdec : Message.from_bytes ([] : List Nat) =
      .ok ⟨[], .Text [], .Private, ⟨0, 0⟩⟩ := rfl
  simp only [process_frame, hdec]
  rw [show broadcast_message ok reg u [] = sendToOthers ok u ⟨u, .Text []⟩ reg from rfl,
    sendToOthers_all_ok ok u ⟨u, .Text []⟩ reg (fun c hc _ => hok c hc)]

theorem C9_zero_frame_broadcasts_witness :
    (∀ c ∈ ([str "alice", str "bob"] : Registry), (fun _ => true) c = true) ∧
    process_frame (fun _ => true) [str "alice", str "bob"] (str "bob") [] =
      ([str "alice", str "bob"],
        [(str "alice", ⟨str "bob", .Text []⟩)], none) :=
  ⟨by decide, by
    have h := C9_zero_frame_broadcasts (fun _ => true) [str "alice", str "bob"]
      (str "bob") (by decide)
    rw [h]
    decide⟩

/-- Claim C10: when the inbound task exits with an error, remove_user
runs inside receive_messages and again in the error branch of
handle_client; the disconnect broadcast is unconditional, so every
remaining participant is enqueued the leave notice twice for the single
disconnect. -/
theorem C10_double_disconnect_notice (ok : List Nat → Bool) (reg : Registry)
    (u c : List Nat) (hnd : reg.Nodup) (hc : c ∈ reg) (hcu : c ≠ u) :
    List.count (c, leftMessage u)
      ((remove_user ok reg u).2 ++
        (remove_user ok (remove_user ok reg u).1 u).2) = 2 := by
  have hreg1 : (remove_user ok reg u).1 = reg.erase u := rfl
  have hnod2 : (reg.erase u).Nodup := hnd.erase u
  have hmem2 : c ∈ reg.erase u := (List.mem_erase_of_ne hcu).mpr hc
  have hfilter : (reg.erase u).filter (fun c => decide (c ≠ u)) = reg.erase u :=
    List.filter_eq_self.mpr (fun a ha => by
      simpa using (hnd.mem_erase_iff.mp ha).1)
  have herase2 : (reg.erase u).erase u = reg.erase u :=
    List.erase_of_not_mem (fun hmem => (hnd.mem_erase_iff.mp hmem).1 rfl)
  have hcount : List.count (c, leftMessage u)
      ((reg.erase u).map fun c => (c, leftMessage u)) = 1 := by
    rw [count_pair_map]
    exact nodup_count_eq_one hnod2 hmem2
  rw [List.count_append]
  rw [show (remove_user ok reg u).2 =
    sendToOthersSwallow ok u (leftMessage u) (reg.erase u) from rfl]
  rw [show (remove_user ok (remove_user ok reg u).1 u).2 =
    sendToOthersSwallow ok u (leftMessage u) ((reg.erase u).erase u) from rfl]
  rw [herase2, sendToOthersSwallow_eq, hfilter, hcount]

theorem C10_double_disconnect_notice_witness :
    ([str "alice", str "bob"] : Registry).Nodup ∧
    str "bob" ∈ ([str "alice", str "bob"] : Registry) ∧
    str "bob" ≠ str "alice" ∧
    List.count (str "bob", leftMessage (str "alice"))
      ((remove_user (fun _ => true) [str "alice", str "bob"] (str "alice")).2 ++
        (remove_user (fun _ => true)
          (remove_user (fun _ => true) [str "alice", str "bob"] (str "alice")).1
          (str "alice")).2) = 2 :=
  ⟨by decide, by decide, by decide,
    C10_double_disconnect_notice (fun _ => true) [str "alice", str "bob"]
      (str "alice") (str "bob") (by decide) (by decide) (by decide)⟩

end Morce
